import Mathlib

/-
  Verification development for the shell-tac-toe game server (src/server.js).

  The server is a single-threaded event loop mutating one Game record per
  match plus a process-wide registry (a Map from match id to Game).  We give
  a shallow embedding: every handler of the WebSocket message switch becomes
  a pure Lean function from the pre-state (plus the values drawn from the
  random source, which the handler obtains via Math.random / crypto) to the
  post-state together with an outcome or an event list.  JS cell values
  0 / 'X' / 'O' become the Cell type; JS arrays of shell names and of mine
  positions become Lean lists in the same order (push = append, indexOf +
  splice(i,1) = List.erase of the first occurrence).
-/

/-- The two player symbols, 'X' and 'O' in the source. -/
inductive Symb
  | X
  | O
deriving DecidableEq

/-- A board cell: 0 in the source is empty, otherwise it holds a symbol. -/
inductive Cell
  | empty
  | owned (s : Symb)
deriving DecidableEq

/-- The three shell (power-up) kinds, SHELL_TYPES in the source. -/
inductive Shell
  | mine
  | shovel
  | flip
deriving DecidableEq

/-- Source function opponent(sym): the other symbol. -/
def opponent : Symb → Symb
  | .X => .O
  | .O => .X

/-- Source expression opponent(x) applied to a possibly-null currentTurn:
JS evaluates (sym === 'X' ? 'O' : 'X'), so null maps to 'X'. -/
def jsOpponent : Option Symb → Symb
  | some .X => .O
  | _ => .X

/-- The eight canonical lines, WIN_LINES in the source, in source order. -/
def WIN_LINES : List (Nat × Nat × Nat) :=
  [(0, 1, 2), (3, 4, 5), (6, 7, 8),
   (0, 3, 6), (1, 4, 7), (2, 5, 8),
   (0, 4, 8), (2, 4, 6)]

/-- Reading board[i]; the board always has 9 cells, out of range reads
default to empty (unreachable for validated indices). -/
def cellAt (board : List Cell) (i : Nat) : Cell :=
  board.getD i .empty

/-- The value checkWin returns: the winning symbol and the winning line. -/
structure WinInfo where
  winner : Symb
  cells : Nat × Nat × Nat
deriving DecidableEq

/-- One iteration of the checkWin loop: board[a] !== 0 and
board[a] === board[b] === board[c] yields the winner and the line. -/
def lineWinner (board : List Cell) (l : Nat × Nat × Nat) : Option WinInfo :=
  match cellAt board l.1 with
  | .empty => none
  | .owned s =>
      if cellAt board l.2.1 = .owned s ∧ cellAt board l.2.2 = .owned s then
        some ⟨s, l⟩
      else
        none

/-- Source function checkWin(board): the first line of WIN_LINES whose three
cells are non-empty and equal, or null. -/
def checkWin (board : List Cell) : Option WinInfo :=
  WIN_LINES.findSome? (lineWinner board)

/-- SHELL_TYPES in the source: the list the random draw indexes into. -/
def SHELL_TYPES : List Shell := [.mine, .shovel, .flip]

/-- Source function generateRandomShell(), with the Math.random() draw
r from the half-open unit interval made explicit:
SHELL_TYPES[Math.floor(r * 3)]. -/
def generateRandomShell (r : ℚ) : Shell :=
  SHELL_TYPES.getD (Int.toNat ⌊r * 3⌋) .mine

/-- A live connection; cid models the identity of the socket object and
readyState its ws readyState field (1 = OPEN). -/
structure Conn where
  cid : Nat
  readyState : Nat
deriving DecidableEq

/-- One seat's player record {ws, username, userId}; ws is null after a
disconnect. -/
structure Player where
  ws : Option Conn
  username : String
  userId : String
deriving DecidableEq

/-- The per-match mutable state created by createGameState(id).  The JS
objects keyed by 'X'/'O' become pairs of fields. -/
structure Game where
  id : String
  board : List Cell
  shellsX : List Shell
  shellsO : List Shell
  minesX : List Nat
  minesO : List Nat
  currentTurn : Option Symb
  playersX : Option Player
  playersO : Option Player
  gameOver : Bool
  firstPlayer : Option Symb
  winner : Option Symb
  winCells : Option (Nat × Nat × Nat)
  restartVotesX : Bool
  restartVotesO : Bool
deriving DecidableEq

/-- game.shells[sym] accessor. -/
def Game.shells (g : Game) : Symb → List Shell
  | .X => g.shellsX
  | .O => g.shellsO

/-- game.mines[sym] accessor. -/
def Game.mines (g : Game) : Symb → List Nat
  | .X => g.minesX
  | .O => g.minesO

/-- game.players[sym] accessor. -/
def Game.player (g : Game) : Symb → Option Player
  | .X => g.playersX
  | .O => g.playersO

/-- game.restartVotes[sym] accessor. -/
def Game.restartVote (g : Game) : Symb → Bool
  | .X => g.restartVotesX
  | .O => g.restartVotesO

/-- Assignment game.shells[sym] = v. -/
def Game.setShells (g : Game) : Symb → List Shell → Game
  | .X, v => { g with shellsX := v }
  | .O, v => { g with shellsO := v }

/-- Assignment game.mines[sym] = v. -/
def Game.setMines (g : Game) : Symb → List Nat → Game
  | .X, v => { g with minesX := v }
  | .O, v => { g with minesO := v }

/-- Assignment game.players[sym] = v. -/
def Game.setPlayer (g : Game) : Symb → Option Player → Game
  | .X, v => { g with playersX := v }
  | .O, v => { g with playersO := v }

/-- Assignment game.restartVotes[sym] = v. -/
def Game.setRestartVote (g : Game) : Symb → Bool → Game
  | .X, v => { g with restartVotesX := v }
  | .O, v => { g with restartVotesO := v }

/-- Source function createGameState(id). -/
def createGameState (id : String) : Game :=
  { id := id
    board := List.replicate 9 .empty
    shellsX := []
    shellsO := []
    minesX := []
    minesO := []
    currentTurn := none
    playersX := none
    playersO := none
    gameOver := false
    firstPlayer := none
    winner := none
    winCells := none
    restartVotesX := false
    restartVotesO := false }

/-- The asymmetric per-seat snapshot built by buildGameState(game, forSymbol):
the viewer's own shells and mines appear in full, of the opponent only the
shell count; the opponent's mine positions occur nowhere. -/
structure GameView where
  board : List Cell
  currentTurn : Option Symb
  gameOver : Bool
  yourSymbol : Symb
  yourShells : List Shell
  opponentShellCount : Nat
  yourMines : List Nat
  playerNameX : Option String
  playerNameO : Option String
deriving DecidableEq

/-- Source function buildGameState(game, forSymbol). -/
def buildGameState (game : Game) (forSymbol : Symb) : GameView :=
  let oppSymbol := opponent forSymbol
  { board := game.board
    currentTurn := game.currentTurn
    gameOver := game.gameOver
    yourSymbol := forSymbol
    yourShells := game.shells forSymbol
    opponentShellCount := (game.shells oppSymbol).length
    yourMines := game.mines forSymbol
    playerNameX := (game.playersX).map (fun p => p.username)
    playerNameO := (game.playersO).map (fun p => p.username) }

/-- Source function checkGameEnd(game) together with the state mutation that
broadcastGameOver performs (gameOver, winner, winCells); the Bool is the
return value (true when the round ended). -/
def checkGameEnd (g : Game) : Game × Bool :=
  match checkWin g.board with
  | some w =>
      ({ g with gameOver := true, winner := some w.winner, winCells := some w.cells }, true)
  | none =>
      if g.board.all (fun c => c ≠ .empty) then
        ({ g with gameOver := true, winner := none, winCells := none }, true)
      else
        (g, false)

/-- Source function advanceTurn(game): currentTurn becomes the other symbol
(the broadcast it also performs carries no state change). -/
def advanceTurn (g : Game) : Game :=
  { g with currentTurn := some (jsOpponent g.currentTurn) }

/-- Source function processPlacement(game, symbol, cell).  indexOf on the
opponent's mines followed by splice(mineIndex, 1) removes the first
occurrence of cell, which is List.erase; the wipe loop clears every board
cell equal to symbol; on a hit the placed cell itself is never written.
The Bool is the mineTriggered flag of the returned object. -/
def processPlacement (g : Game) (symbol : Symb) (cell : Nat) : Game × Bool :=
  let opp := opponent symbol
  if cell ∈ g.mines opp then
    (Game.setMines
      { g with board := g.board.map (fun c => if c = .owned symbol then .empty else c) }
      opp ((g.mines opp).erase cell), true)
  else
    ({ g with board := g.board.set cell (.owned symbol) }, false)

/-- Outcome classification of one handled message in the embedding: the
handler rejected the action with an error and mutated nothing; or the action
completed and checkGameEnd ended the round; or the action completed and
advanceTurn flipped the turn; or a restart vote was recorded without
resetting; or both votes were in and the round was reset. -/
inductive GOutcome
  | rejected
  | ended
  | advanced
  | voteRecorded
  | roundReset
deriving DecidableEq

/-- The case 'place' handler.  cell is the parseInt result (an out-of-range
or negative value is rejected exactly as NaN is); newShell is the value
generateRandomShell() returned for this message. -/
def placeAction (g : Game) (symbol : Symb) (cell : Int) (newShell : Shell) :
    Game × GOutcome :=
  if g.gameOver then (g, .rejected)
  else if g.currentTurn ≠ some symbol then (g, .rejected)
  else if cell < 0 ∨ 8 < cell then (g, .rejected)
  else if cellAt g.board cell.toNat ≠ .empty then (g, .rejected)
  else
    let pr := processPlacement g symbol cell.toNat
    let g2 := Game.setShells pr.1 symbol (Game.shells pr.1 symbol ++ [newShell])
    let ce := checkGameEnd g2
    if ce.2 then (ce.1, .ended) else (advanceTurn ce.1, .advanced)

/-- The case 'useMine' handler: requires a mine shell, an empty cell and no
existing mine of either player there; consumes the first mine shell
(indexOf + splice = erase) and appends the cell to the mover's mines. -/
def useMineAction (g : Game) (symbol : Symb) (cell : Int) :
    Game × GOutcome :=
  if g.gameOver then (g, .rejected)
  else if g.currentTurn ≠ some symbol then (g, .rejected)
  else if Shell.mine ∉ g.shells symbol then (g, .rejected)
  else if cell < 0 ∨ 8 < cell then (g, .rejected)
  else if cellAt g.board cell.toNat ≠ .empty then (g, .rejected)
  else if cell.toNat ∈ g.mines symbol ∨ cell.toNat ∈ g.mines (opponent symbol) then
    (g, .rejected)
  else
    let g1 := Game.setMines (Game.setShells g symbol ((g.shells symbol).erase .mine))
      symbol (g.mines symbol ++ [cell.toNat])
    (advanceTurn g1, .advanced)

/-- The case 'useShovel' handler: requires a shovel shell and an
opponent-owned cell; consumes the shell, clears the cell, advances the turn
(the source calls no game-end check here). -/
def useShovelAction (g : Game) (symbol : Symb) (cell : Int) :
    Game × GOutcome :=
  if g.gameOver then (g, .rejected)
  else if g.currentTurn ≠ some symbol then (g, .rejected)
  else if Shell.shovel ∉ g.shells symbol then (g, .rejected)
  else if cell < 0 ∨ 8 < cell then (g, .rejected)
  else if cellAt g.board cell.toNat ≠ .owned (opponent symbol) then (g, .rejected)
  else
    let g1 := { Game.setShells g symbol ((g.shells symbol).erase .shovel) with
                board := g.board.set cell.toNat .empty }
    (advanceTurn g1, .advanced)

/-- The case 'useFlip' handler: requires a flip shell and an opponent-owned
cell; the source provisionally writes the mover's symbol into the cell,
calls checkWin, reverts, and rejects when the provisional winner is the
mover (net state unchanged); otherwise it consumes the shell, applies the
conversion, checks game end and advances the turn. -/
def useFlipAction (g : Game) (symbol : Symb) (cell : Int) :
    Game × GOutcome :=
  if g.gameOver then (g, .rejected)
  else if g.currentTurn ≠ some symbol then (g, .rejected)
  else if Shell.flip ∉ g.shells symbol then (g, .rejected)
  else if cell < 0 ∨ 8 < cell then (g, .rejected)
  else if cellAt g.board cell.toNat ≠ .owned (opponent symbol) then (g, .rejected)
  else
    let provisional := g.board.set cell.toNat (.owned symbol)
    if (checkWin provisional).any (fun w => w.winner = symbol) then
      (g, .rejected)
    else
      let g1 := { Game.setShells g symbol ((g.shells symbol).erase .flip) with
                  board := provisional }
      let ce := checkGameEnd g1
      if ce.2 then (ce.1, .ended) else (advanceTurn ce.1, .advanced)

/-- The case 'restart' handler.  swap and newFirst are the two
Math.random() draws (seat swap coin and new first mover) used when both
votes are in. -/
def restartAction (g : Game) (symbol : Symb) (swap : Bool) (newFirst : Symb) :
    Game × GOutcome :=
  if g.gameOver = false then (g, .rejected)
  else
    let g1 := Game.setRestartVote g symbol true
    if g1.restartVotesX ∧ g1.restartVotesO then
      let g2 := if swap then
          { g1 with playersX := g1.playersO, playersO := g1.playersX }
        else g1
      ({ g2 with
          board := List.replicate 9 .empty
          shellsX := []
          shellsO := []
          minesX := []
          minesO := []
          gameOver := false
          winner := none
          winCells := none
          restartVotesX := false
          restartVotesO := false
          firstPlayer := some newFirst
          currentTurn := some newFirst }, .roundReset)
    else (g1, .voteRecorded)

/-- One in-match client message, with the values the handler draws from the
random source carried as parameters. -/
inductive GAction
  | place (symbol : Symb) (cell : Int) (newShell : Shell)
  | useMine (symbol : Symb) (cell : Int)
  | useShovel (symbol : Symb) (cell : Int)
  | useFlip (symbol : Symb) (cell : Int)
  | restart (symbol : Symb) (swap : Bool) (newFirst : Symb)
deriving DecidableEq

/-- Dispatch of the message switch for the in-match actions. -/
def step (g : Game) : GAction → Game × GOutcome
  | .place symbol cell newShell => placeAction g symbol cell newShell
  | .useMine symbol cell => useMineAction g symbol cell
  | .useShovel symbol cell => useShovelAction g symbol cell
  | .useFlip symbol cell => useFlipAction g symbol cell
  | .restart symbol swap newFirst => restartAction g symbol swap newFirst

/-- Folding a list of messages through the dispatcher. -/
def runActions (g : Game) (as : List GAction) : Game :=
  as.foldl (fun st a => (step st a).1) g

/-- The process-wide games Map, modelled as an association list in insertion
order with Map semantics: set replaces the value of an existing key in
place, otherwise appends. -/
abbrev Registry := List (String × Game)

/-- games.get(id). -/
def registryLookup : Registry → String → Option Game
  | [], _ => none
  | (k, v) :: rest, key => if k = key then some v else registryLookup rest key

/-- games.set(id, game): Map set semantics. -/
def registrySet : Registry → String → Game → Registry
  | [], key, game => [(key, game)]
  | (k, v) :: rest, key, game =>
      if k = key then (key, game) :: rest else (k, v) :: registrySet rest key game

/-- games.delete(id). -/
def registryDelete : Registry → String → Registry
  | [], _ => []
  | (k, v) :: rest, key =>
      if k = key then rest else (k, v) :: registryDelete rest key

/-- The ids of the currently-live matches. -/
def registryKeys (reg : Registry) : List String :=
  reg.map (fun e => e.1)

/-- The case 'create' handler: gameId stands for the generateId() draw (six
random hex digits), creatorSymbol for the Math.random() seat coin, userId
for the supplied or generated token.  The new game is stored with
games.set, with no check that the id is free. -/
def createCase (reg : Registry) (ws : Conn) (usernameRaw : String)
    (userId : String) (gameId : String) (creatorSymbol : Symb) : Registry :=
  let username := usernameRaw.take 20
  let game := Game.setPlayer (createGameState gameId) creatorSymbol
    (some { ws := some ws, username := username, userId := userId })
  registrySet reg gameId game

/-- The case 'join' handler restricted to its game mutation: the joiner
takes the free seat ('O' when 'X' is taken, else 'X'), and the Math.random()
coin firstPlayer becomes both firstPlayer and currentTurn.  Validation
(game exists, game not full) happens at the call site. -/
def joinGame (g : Game) (ws : Conn) (usernameRaw : String) (userId : String)
    (firstPlayer : Symb) : Game :=
  let username := usernameRaw.take 20
  let joinerSymbol : Symb := if g.playersX.isSome then .O else .X
  let g1 := Game.setPlayer g joinerSymbol
    (some { ws := some ws, username := username, userId := userId })
  { g1 with firstPlayer := some firstPlayer, currentTurn := some firstPlayer }

/-- Server-to-client payloads relevant to the reconnect handler. -/
inductive ServerMsg
  | errorMsg (message : String)
  | reconnectFailed (reason : String)
  | kicked (reason : String)
  | reconnected (symbol : Symb) (gameId : String) (opponentName : Option String)
      (yourUsername : String) (gameStarted : Bool)
  | opponentReconnected
  | stateMsg (v : GameView)
  | gameOverReveal (winner : Option Symb) (winCells : Option (Nat × Nat × Nat))
      (board : List Cell) (shellsX shellsO : List Shell)
      (minesX minesO : List Nat) (yourSymbol : Symb)
deriving DecidableEq

/-- Observable transport effects of one handled message. -/
inductive Event
  | send (target : Nat) (msg : ServerMsg)
  | closeConn (target : Nat)
deriving DecidableEq

/-- sendJSON(ws, data): delivered only when ws.readyState === 1. -/
def sendJSON (ws : Conn) (m : ServerMsg) : List Event :=
  if ws.readyState = 1 then [.send ws.cid m] else []

/-- The loop in the reconnect handler that finds which seat's userId matches,
checking 'X' before 'O'. -/
def findUserSeat (g : Game) (userId : String) : Option Symb :=
  match g.playersX with
  | some p =>
      if p.userId = userId then some .X
      else
        match g.playersO with
        | some q => if q.userId = userId then some .O else none
        | none => none
  | none =>
      match g.playersO with
      | some q => if q.userId = userId then some .O else none
      | none => none

/-- The normalisation (msg.gameId || '').toString().toUpperCase().trim()
applied to incoming ids, written over the character list (upper-case every
character, then drop whitespace from both ends). -/
def jsNormalizeId (s : String) : String :=
  ⟨(((s.data.map Char.toUpper).dropWhile Char.isWhitespace).reverse.dropWhile
      Char.isWhitespace).reverse⟩

/-- The case 'reconnect' handler: normalises the id, resolves the match,
matches the token against the seats, evicts a distinct still-open old
socket (kicked notification plus close), rebinds the seat to the new
socket, answers with the reconnected payload (opponent name and whether the
match has started), notifies the opponent, and replays the asymmetric state
plus, when the round is over, the full reveal.  The socket-attached routing
fields (ws._gameId and friends) are connection metadata outside the Game
state and are not modelled. -/
def reconnectCase (reg : Registry) (gameIdRaw userId : String) (ws : Conn) :
    Registry × List Event :=
  let gameId := jsNormalizeId gameIdRaw
  match registryLookup reg gameId with
  | none => (reg, sendJSON ws (.reconnectFailed ("Game not found")))
  | some game =>
    match findUserSeat game userId with
    | none => (reg, sendJSON ws (.reconnectFailed ("Not a player in this game")))
    | some sym =>
      match game.player sym with
      | none => (reg, [])
      | some pl =>
        let kickEvents :=
          match pl.ws with
          | some oldWs =>
              if oldWs.cid ≠ ws.cid ∧ oldWs.readyState = 1 then
                sendJSON oldWs (.kicked ("Reconnected from another tab")) ++
                  [.closeConn oldWs.cid]
              else []
          | none => []
        let game2 := Game.setPlayer game sym (some { pl with ws := some ws })
        let oppPlayer := game2.player (opponent sym)
        let ev1 := sendJSON ws (.reconnected sym gameId
          (oppPlayer.map (fun p => p.username)) pl.username game2.currentTurn.isSome)
        let ev2 :=
          match oppPlayer with
          | some op =>
              match op.ws with
              | some ow => sendJSON ow .opponentReconnected
              | none => []
          | none => []
        let ev3 :=
          if game2.currentTurn.isSome ∨ game2.gameOver then
            sendJSON ws (.stateMsg (buildGameState game2 sym)) ++
              (if game2.gameOver then
                sendJSON ws (.gameOverReveal game2.winner game2.winCells game2.board
                  game2.shellsX game2.shellsO game2.minesX game2.minesO sym)
              else [])
          else []
        (registrySet reg gameId game2, kickEvents ++ ev1 ++ ev2 ++ ev3)

/-! Field bookkeeping lemmas: which fields each state update touches. -/

@[simp]
theorem shells_setShells (g : Game) (s t : Symb) (v : List Shell) :
    (Game.setShells g s v).shells t = if t = s then v else g.shells t := by
  cases s <;> cases t <;> simp [Game.setShells, Game.shells]

@[simp]
theorem mines_setShells (g : Game) (s t : Symb) (v : List Shell) :
    (Game.setShells g s v).mines t = g.mines t := by
  cases s <;> cases t <;> rfl

@[simp]
theorem board_setShells (g : Game) (s : Symb) (v : List Shell) :
    (Game.setShells g s v).board = g.board := by
  cases s <;> rfl

@[simp]
theorem currentTurn_setShells (g : Game) (s : Symb) (v : List Shell) :
    (Game.setShells g s v).currentTurn = g.currentTurn := by
  cases s <;> rfl

@[simp]
theorem gameOver_setShells (g : Game) (s : Symb) (v : List Shell) :
    (Game.setShells g s v).gameOver = g.gameOver := by
  cases s <;> rfl

@[simp]
theorem mines_setMines (g : Game) (s t : Symb) (v : List Nat) :
    (Game.setMines g s v).mines t = if t = s then v else g.mines t := by
  cases s <;> cases t <;> simp [Game.setMines, Game.mines]

@[simp]
theorem shells_setMines (g : Game) (s t : Symb) (v : List Nat) :
    (Game.setMines g s v).shells t = g.shells t := by
  cases s <;> cases t <;> rfl

@[simp]
theorem board_setMines (g : Game) (s : Symb) (v : List Nat) :
    (Game.setMines g s v).board = g.board := by
  cases s <;> rfl

@[simp]
theorem currentTurn_setMines (g : Game) (s : Symb) (v : List Nat) :
    (Game.setMines g s v).currentTurn = g.currentTurn := by
  cases s <;> rfl

@[simp]
theorem gameOver_setMines (g : Game) (s : Symb) (v : List Nat) :
    (Game.setMines g s v).gameOver = g.gameOver := by
  cases s <;> rfl

@[simp]
theorem board_checkGameEnd (g : Game) : (checkGameEnd g).1.board = g.board := by
  unfold checkGameEnd
  cases h : checkWin g.board <;> simp [h] <;> split <;> rfl

@[simp]
theorem shells_checkGameEnd (g : Game) (t : Symb) :
    (checkGameEnd g).1.shells t = g.shells t := by
  unfold checkGameEnd
  cases h : checkWin g.board <;> cases t <;> simp [h, Game.shells] <;> split <;> rfl

@[simp]
theorem mines_checkGameEnd (g : Game) (t : Symb) :
    (checkGameEnd g).1.mines t = g.mines t := by
  unfold checkGameEnd
  cases h : checkWin g.board <;> cases t <;> simp [h, Game.mines] <;> split <;> rfl

@[simp]
theorem currentTurn_checkGameEnd (g : Game) :
    (checkGameEnd g).1.currentTurn = g.currentTurn := by
  unfold checkGameEnd
  cases h : checkWin g.board <;> simp [h] <;> split <;> rfl

@[simp]
theorem board_advanceTurn (g : Game) : (advanceTurn g).board = g.board := rfl

@[simp]
theorem shells_advanceTurn (g : Game) (t : Symb) :
    (advanceTurn g).shells t = g.shells t := by
  cases t <;> rfl

@[simp]
theorem mines_advanceTurn (g : Game) (t : Symb) :
    (advanceTurn g).mines t = g.mines t := by
  cases t <;> rfl

@[simp]
theorem gameOver_advanceTurn (g : Game) : (advanceTurn g).gameOver = g.gameOver := rfl

theorem shells_processPlacement (g : Game) (s : Symb) (c : Nat) (t : Symb) :
    (processPlacement g s c).1.shells t = g.shells t := by
  unfold processPlacement
  dsimp only
  split <;> cases t <;> cases hs : opponent s <;> simp [Game.shells, Game.setMines]

theorem currentTurn_processPlacement (g : Game) (s : Symb) (c : Nat) :
    (processPlacement g s c).1.currentTurn = g.currentTurn := by
  unfold processPlacement
  dsimp only
  split <;> cases hs : opponent s <;> simp [Game.setMines]

theorem gameOver_processPlacement (g : Game) (s : Symb) (c : Nat) :
    (processPlacement g s c).1.gameOver = g.gameOver := by
  unfold processPlacement
  dsimp only
  split <;> cases hs : opponent s <;> simp [Game.setMines]

/-- Reading through the wipe loop of processPlacement: position i of the
mapped board is the wipe applied to position i of the old board. -/
theorem cellAt_map_wipe (b : List Cell) (s : Symb) (i : Nat) :
    cellAt (b.map (fun c => if c = .owned s then .empty else c)) i =
      if cellAt b i = .owned s then .empty else cellAt b i := by
  induction b generalizing i with
  | nil => simp [cellAt]
  | cons hd tl ih =>
      cases i with
      | zero => simp [cellAt]
      | succ n => simpa [cellAt] using ih n

theorem opponent_ne (s : Symb) : opponent s ≠ s := by
  cases s <;> simp [opponent]

theorem cellAt_set_self (b : List Cell) (i : Nat) (x : Cell) (h : i < b.length) :
    cellAt (b.set i x) i = x := by
  simp [cellAt, List.getD_eq_getElem?_getD, List.getElem?_set_self h]

theorem cellAt_set_ne (b : List Cell) (i j : Nat) (x : Cell) (h : i ≠ j) :
    cellAt (b.set i x) j = cellAt b j := by
  simp [cellAt, List.getD_eq_getElem?_getD, List.getElem?_set_ne h]

/-- Under the four validity checks of case 'place', the handler commits the
processPlacement board and mines and pushes exactly one new shell for the
mover, whatever checkGameEnd then decides. -/
theorem placeAction_legal_fields (g : Game) (s : Symb) (cell : Int) (sh : Shell)
    (h1 : g.gameOver = false) (h2 : g.currentTurn = some s)
    (h3 : ¬(cell < 0 ∨ 8 < cell)) (h4 : cellAt g.board cell.toNat = .empty) :
    (placeAction g s cell sh).1.board = (processPlacement g s cell.toNat).1.board ∧
    (∀ t, (placeAction g s cell sh).1.mines t = (processPlacement g s cell.toNat).1.mines t) ∧
    (∀ t, (placeAction g s cell sh).1.shells t =
      if t = s then g.shells s ++ [sh] else g.shells t) := by
  unfold placeAction
  rw [if_neg (by simp [h1]), if_neg (by simp [h2]), if_neg h3, if_neg (by simp [h4])]
  dsimp only
  refine ⟨?_, fun t => ?_, fun t => ?_⟩ <;> split <;>
    simp [shells_processPlacement] <;> split <;> simp [shells_processPlacement]

/-- A mid-round position used to instantiate the theorems: X to move, X owns
cells 0 and 1, O owns cells 3 and 4, O has a hidden mine armed on cell 5. -/
def gTrap : Game :=
  { id := "AB12CD"
    board := [.owned .X, .owned .X, .empty, .owned .O, .owned .O, .empty,
              .empty, .empty, .empty]
    shellsX := [.flip]
    shellsO := [.mine]
    minesX := []
    minesO := [5]
    currentTurn := some .X
    playersX := some { ws := some ⟨1, 1⟩, username := "Alice", userId := "tokA" }
    playersO := some { ws := some ⟨2, 1⟩, username := "Bob", userId := "tokB" }
    gameOver := false
    firstPlayer := some .X
    winner := none
    winCells := none
    restartVotesX := false
    restartVotesO := false }

/-- The same position with the mine on cell 5 armed by X, the mover, instead
of by O. -/
def gOwnTrap : Game :=
  { gTrap with minesX := [5], minesO := [] }

/-- Claim C1: in an in-progress game, when the mover places on a cell with
an opposing hidden trap, the placement clears every board cell owned by the
mover back to empty, removes exactly one trap, namely the triggered one,
from the opponent's trap set, leaves the mover's own trap set alone, and
the triggering cell itself remains empty afterwards. -/
theorem trap_trigger_clears_owner_cells (g : Game) (s : Symb) (cell : Int) (sh : Shell)
    (h1 : g.gameOver = false) (h2 : g.currentTurn = some s)
    (h3 : ¬(cell < 0 ∨ 8 < cell)) (h4 : cellAt g.board cell.toNat = .empty)
    (h5 : cell.toNat ∈ g.mines (opponent s)) :
    (∀ i, cellAt g.board i = .owned s →
      cellAt (placeAction g s cell sh).1.board i = .empty) ∧
    cellAt (placeAction g s cell sh).1.board cell.toNat = .empty ∧
    (placeAction g s cell sh).1.mines (opponent s) =
      (g.mines (opponent s)).erase cell.toNat ∧
    ((placeAction g s cell sh).1.mines (opponent s)).length + 1 =
      (g.mines (opponent s)).length ∧
    (placeAction g s cell sh).1.mines s = g.mines s := by
  obtain ⟨hb, hm, -⟩ := placeAction_legal_fields g s cell sh h1 h2 h3 h4
  have hpp : processPlacement g s cell.toNat =
      (Game.setMines
        { g with board := g.board.map (fun c => if c = .owned s then .empty else c) }
        (opponent s) ((g.mines (opponent s)).erase cell.toNat), true) := by
    unfold processPlacement
    rw [if_pos h5]
  refine ⟨fun i hi => ?_, ?_, ?_, ?_, ?_⟩
  · rw [hb, hpp]
    have : (Game.setMines
        { g with board := g.board.map (fun c => if c = .owned s then .empty else c) }
        (opponent s) ((g.mines (opponent s)).erase cell.toNat)).board =
        g.board.map (fun c => if c = .owned s then .empty else c) := by
      cases hos : opponent s <;> simp [Game.setMines]
    rw [this, cellAt_map_wipe, hi, if_pos rfl]
  · rw [hb, hpp]
    have : (Game.setMines
        { g with board := g.board.map (fun c => if c = .owned s then .empty else c) }
        (opponent s) ((g.mines (opponent s)).erase cell.toNat)).board =
        g.board.map (fun c => if c = .owned s then .empty else c) := by
      cases hos : opponent s <;> simp [Game.setMines]
    rw [this, cellAt_map_wipe, h4]
    simp
  · rw [hm, hpp]
    simp
  · rw [hm, hpp]
    simp
    have hlen := List.length_erase_of_mem h5
    have hpos := List.length_pos_of_mem h5
    omega
  · rw [hm, hpp]
    simp only [mines_setMines]
    rw [if_neg (Ne.symm (opponent_ne s))]
    cases s <;> rfl

/-- Witness for claim C1: in gTrap, X placing on the mined cell 5 leaves
cell 5 empty, wipes X's coin on cell 0, consumes O's only mine and keeps
X's (empty) mine list. -/
theorem trap_trigger_clears_owner_cells_witness :
    cellAt (placeAction gTrap .X 5 .mine).1.board 0 = .empty ∧
    cellAt (placeAction gTrap .X 5 .mine).1.board (Int.toNat 5) = .empty ∧
    (placeAction gTrap .X 5 .mine).1.mines (opponent .X) =
      (gTrap.mines (opponent .X)).erase (Int.toNat 5) ∧
    ((placeAction gTrap .X 5 .mine).1.mines (opponent .X)).length + 1 =
      (gTrap.mines (opponent .X)).length ∧
    (placeAction gTrap .X 5 .mine).1.mines .X = gTrap.mines .X :=
  have h := trap_trigger_clears_owner_cells gTrap .X 5 .mine (by decide) (by decide)
    (by decide) (by decide) (by decide)
  ⟨h.1 0 (by decide), h.2.1, h.2.2.1, h.2.2.2.1, h.2.2.2.2⟩

/-- Claim C10: a placement never triggers the mover's own trap: the mine
scan looks only at the opponent's trap set, so with no opposing trap on the
cell the placement succeeds normally and the mover's own trap on that very
cell stays armed; in general the trigger flag forces an opposing trap. -/
theorem own_trap_not_triggered (g : Game) (s : Symb) (cell : Int) (sh : Shell)
    (h1 : g.gameOver = false) (h2 : g.currentTurn = some s)
    (h3 : ¬(cell < 0 ∨ 8 < cell)) (h4 : cellAt g.board cell.toNat = .empty)
    (h5 : cell.toNat ∉ g.mines (opponent s)) (h6 : cell.toNat ∈ g.mines s)
    (hlen : g.board.length = 9) :
    (processPlacement g s cell.toNat).2 = false ∧
    (placeAction g s cell sh).1.board = g.board.set cell.toNat (.owned s) ∧
    cellAt (placeAction g s cell sh).1.board cell.toNat = .owned s ∧
    (placeAction g s cell sh).1.mines s = g.mines s ∧
    cell.toNat ∈ (placeAction g s cell sh).1.mines s ∧
    (placeAction g s cell sh).1.mines (opponent s) = g.mines (opponent s) ∧
    (∀ g' : Game, ∀ s' : Symb, ∀ c' : Nat,
      (processPlacement g' s' c').2 = true → c' ∈ g'.mines (opponent s')) := by
  obtain ⟨hb, hm, -⟩ := placeAction_legal_fields g s cell sh h1 h2 h3 h4
  have hpp : processPlacement g s cell.toNat =
      ({ g with board := g.board.set cell.toNat (.owned s) }, false) := by
    unfold processPlacement
    rw [if_neg h5]
  have hcell : cell.toNat < g.board.length := by
    rw [hlen]
    omega
  refine ⟨by rw [hpp], ?_, ?_, ?_, ?_, ?_, ?_⟩
  · rw [hb, hpp]
  · rw [hb, hpp]
    exact cellAt_set_self g.board cell.toNat (.owned s) hcell
  · rw [hm, hpp]
    cases s <;> rfl
  · rw [hm, hpp]
    have : ({ g with board := g.board.set cell.toNat (.owned s) } : Game).mines s =
        g.mines s := by cases s <;> rfl
    rw [this]
    exact h6
  · rw [hm, hpp]
    cases hos : opponent s <;> rfl
  · intro g' s' c' htrig
    by_contra hmem
    have : processPlacement g' s' c' =
        ({ g' with board := g'.board.set c' (.owned s') }, false) := by
      unfold processPlacement
      rw [if_neg hmem]
    rw [this] at htrig
    exact Bool.false_ne_true htrig

/-- Witness for claim C10: in gOwnTrap, X placing on cell 5, which carries
only X's own mine, is a normal successful placement and X's mine stays. -/
theorem own_trap_not_triggered_witness :
    (processPlacement gOwnTrap .X (Int.toNat 5)).2 = false ∧
    cellAt (placeAction gOwnTrap .X 5 .mine).1.board (Int.toNat 5) = .owned .X ∧
    (placeAction gOwnTrap .X 5 .mine).1.mines .X = gOwnTrap.mines .X ∧
    Int.toNat 5 ∈ (placeAction gOwnTrap .X 5 .mine).1.mines .X :=
  have h := own_trap_not_triggered gOwnTrap .X 5 .mine (by decide) (by decide)
    (by decide) (by decide) (by decide) (by decide) (by decide)
  ⟨h.1, h.2.2.1, h.2.2.2.1, h.2.2.2.2.1⟩

/-- Claim C7: the per-seat projection depends only on the board, the turn,
the game-over flag, the viewer's own shells and mines, the count of the
opponent's shells and the display names: two states that differ only in the
opponent's mine positions or the identities of the opponent's shells, with
equal shell count, project identically for the viewing seat, so the view
leaks neither the opponent's trap positions nor its shell identities. -/
theorem projection_hides_opponent_secrets (g1 g2 : Game) (s : Symb)
    (hb : g1.board = g2.board) (ht : g1.currentTurn = g2.currentTurn)
    (ho : g1.gameOver = g2.gameOver)
    (hs : g1.shells s = g2.shells s)
    (hm : g1.mines s = g2.mines s)
    (hc : (g1.shells (opponent s)).length = (g2.shells (opponent s)).length)
    (hpx : g1.playersX.map (fun p => p.username) = g2.playersX.map (fun p => p.username))
    (hpo : g1.playersO.map (fun p => p.username) = g2.playersO.map (fun p => p.username)) :
    buildGameState g1 s = buildGameState g2 s := by
  simp [buildGameState, hb, ht, ho, hs, hm, hc, hpx, hpo]

/-- A variant of gTrap in which O's secrets differ: the hidden mine sits on
cell 7 instead of 5 and O's single shell is a shovel instead of a mine. -/
def gTrapAlt : Game :=
  { gTrap with minesO := [7], shellsO := [.shovel] }

/-- Witness for claim C7: gTrap and gTrapAlt differ exactly in O's mine
position and O's shell identity, yet X receives the same projection. -/
theorem projection_hides_opponent_secrets_witness :
    buildGameState gTrap .X = buildGameState gTrapAlt .X :=
  projection_hides_opponent_secrets gTrap gTrapAlt .X (by decide) (by decide)
    (by decide) (by decide) (by decide) (by decide) (by decide) (by decide)

/-- A successful findSome? splits the list at the first hit: everything
before the found element maps to none. -/
theorem findSome?_first {α β : Type} (f : α → Option β) (l : List α) (b : β)
    (h : l.findSome? f = some b) :
    ∃ a pre post, l = pre ++ a :: post ∧ f a = some b ∧ ∀ x ∈ pre, f x = none := by
  induction l with
  | nil => simp at h
  | cons hd tl ih =>
      rw [List.findSome?_cons] at h
      cases hf : f hd with
      | some v =>
          rw [hf] at h
          dsimp only at h
          exact ⟨hd, [], tl, rfl, hf.trans h, by simp⟩
      | none =>
          rw [hf] at h
          obtain ⟨a, pre, post, hsplit, hfa, hpre⟩ := ih h
          refine ⟨a, hd :: pre, post, by rw [hsplit]; rfl, hfa, ?_⟩
          intro x hx
          rcases List.mem_cons.mp hx with hx | hx
          · rw [hx]
            exact hf
          · exact hpre x hx

/-- Shape of a successful lineWinner: the returned record carries that very
line, and its three cells are owned by the returned winner. -/
theorem lineWinner_eq_some (board : List Cell) (l : Nat × Nat × Nat) (w : WinInfo)
    (h : lineWinner board l = some w) :
    w.cells = l ∧ cellAt board l.1 = .owned w.winner ∧
    cellAt board l.2.1 = .owned w.winner ∧ cellAt board l.2.2 = .owned w.winner := by
  unfold lineWinner at h
  cases hc : cellAt board l.1 with
  | empty =>
      rw [hc] at h
      simp at h
  | owned s =>
      rw [hc] at h
      dsimp only at h
      by_cases hcond : cellAt board l.2.1 = .owned s ∧ cellAt board l.2.2 = .owned s
      · rw [if_pos hcond] at h
        cases h
        exact ⟨rfl, rfl, hcond.1, hcond.2⟩
      · rw [if_neg hcond] at h
        simp at h

/-- Conversely, three commonly-owned cells make lineWinner fire. -/
theorem lineWinner_of_owned (board : List Cell) (l : Nat × Nat × Nat) (s : Symb)
    (h1 : cellAt board l.1 = .owned s) (h2 : cellAt board l.2.1 = .owned s)
    (h3 : cellAt board l.2.2 = .owned s) :
    lineWinner board l = some ⟨s, l⟩ := by
  unfold lineWinner
  rw [h1]
  simp [h2, h3]

/-- Claim C4: checkWin is a pure function of the board returning the first
of the 8 canonical lines whose three cells are non-empty and commonly
owned, together with that owner and the cell indices; and checkGameEnd
declares a draw exactly when no winning line exists and every cell is
non-empty. -/
theorem checkWin_first_line_and_draw (g : Game) :
    (∀ w, checkWin g.board = some w →
      ∃ pre post, WIN_LINES = pre ++ w.cells :: post ∧
        (∀ l ∈ pre, lineWinner g.board l = none) ∧
        cellAt g.board w.cells.1 = .owned w.winner ∧
        cellAt g.board w.cells.2.1 = .owned w.winner ∧
        cellAt g.board w.cells.2.2 = .owned w.winner) ∧
    (checkWin g.board = none → ∀ l ∈ WIN_LINES, ∀ s : Symb,
      ¬(cellAt g.board l.1 = .owned s ∧ cellAt g.board l.2.1 = .owned s ∧
        cellAt g.board l.2.2 = .owned s)) ∧
    (((checkGameEnd g).2 = true ∧ (checkGameEnd g).1.winner = none) ↔
      (checkWin g.board = none ∧ ∀ c ∈ g.board, c ≠ .empty)) := by
  refine ⟨?_, ?_, ?_⟩
  · intro w hw
    obtain ⟨a, pre, post, hsplit, hfa, hpre⟩ := findSome?_first _ _ _ hw
    obtain ⟨hcells, h1, h2, h3⟩ := lineWinner_eq_some g.board a w hfa
    refine ⟨pre, post, ?_, hpre, ?_, ?_, ?_⟩ <;> rw [hcells] <;>
      first
        | exact hsplit
        | assumption
  · intro hnone l hl s ⟨h1, h2, h3⟩
    have := List.findSome?_eq_none_iff.mp hnone l hl
    rw [lineWinner_of_owned g.board l s h1 h2 h3] at this
    simp at this
  · unfold checkGameEnd
    cases hcw : checkWin g.board with
    | some w => simp [hcw]
    | none =>
        by_cases hfull : g.board.all (fun c => c ≠ .empty)
        · rw [if_pos hfull]
          simp only [List.all_eq_true, decide_eq_true_eq] at hfull
          exact ⟨fun _ => ⟨rfl, hfull⟩, fun _ => ⟨rfl, rfl⟩⟩
        · rw [if_neg hfull]
          simp only [List.all_eq_true, decide_eq_true_eq] at hfull
          exact ⟨fun h => absurd h.1 (by simp),
            fun h => absurd (fun c hc => h.2 c hc) hfull⟩

/-- A finished board with every cell filled and no three-in-a-row. -/
def gFull : Game :=
  { gTrap with
    board := [.owned .X, .owned .O, .owned .X,
              .owned .X, .owned .O, .owned .O,
              .owned .O, .owned .X, .owned .X]
    minesO := []
    shellsO := [] }

/-- Witness for claim C4: the full no-line board of gFull is declared a
draw by checkGameEnd. -/
theorem checkWin_first_line_and_draw_witness :
    (checkGameEnd gFull).2 = true ∧ (checkGameEnd gFull).1.winner = none :=
  (checkWin_first_line_and_draw gFull).2.2.mpr ⟨by decide, by decide⟩

theorem jsOpponent_some (s : Symb) : jsOpponent (some s) = opponent s := by
  cases s <;> rfl

theorem eq_opponent_of_ne {s t : Symb} (h : t ≠ s) : t = opponent s := by
  cases s <;> cases t <;> simp_all [opponent]

/-- The board has a completed line for s: the specification notion of
"a winning line for the mover". -/
def hasWin (board : List Cell) (s : Symb) : Prop :=
  ∃ l ∈ WIN_LINES, cellAt board l.1 = .owned s ∧ cellAt board l.2.1 = .owned s ∧
    cellAt board l.2.2 = .owned s

instance (board : List Cell) (s : Symb) : Decidable (hasWin board s) := by
  unfold hasWin
  infer_instance

theorem gameOver_of_checkGameEnd (g : Game) (h : (checkGameEnd g).2 = true) :
    (checkGameEnd g).1.gameOver = true := by
  unfold checkGameEnd at h ⊢
  cases hcw : checkWin g.board with
  | some w => rfl
  | none =>
      rw [hcw] at h
      dsimp only at h ⊢
      by_cases hfull : g.board.all (fun c => c ≠ .empty)
      · rw [if_pos hfull]
      · rw [if_neg hfull] at h
        exact absurd h (by simp)

/-- On a board with no completed line, writing s into one cell can complete
lines for s only: any lineWinner hit on the provisional board is s's. -/
theorem provisional_winner_is_mover (g : Game) (s : Symb) (c : Nat)
    (hlen : g.board.length = 9) (hc : c < 9)
    (hnone : checkWin g.board = none) (w : WinInfo)
    (hw : checkWin (g.board.set c (.owned s)) = some w) : w.winner = s := by
  by_contra hws
  obtain ⟨a, pre, post, hsplit, hfa, -⟩ := findSome?_first _ _ _ hw
  obtain ⟨hcells, h1, h2, h3⟩ := lineWinner_eq_some _ a w hfa
  have ha : a ∈ WIN_LINES := by
    rw [hsplit]
    simp
  have hget : ∀ i : Nat, cellAt (g.board.set c (.owned s)) i = .owned w.winner →
      cellAt g.board i = .owned w.winner := by
    intro i hi
    by_cases hic : c = i
    · rw [← hic] at hi
      rw [cellAt_set_self g.board c (.owned s) (by omega)] at hi
      cases hi
      exact absurd rfl hws
    · rw [cellAt_set_ne g.board c i (.owned s) hic] at hi
      exact hi
  have := List.findSome?_eq_none_iff.mp hnone a ha
  rw [lineWinner_of_owned g.board a w.winner (hget _ h1) (hget _ h2) (hget _ h3)] at this
  simp at this

/-- Claim C2: in an in-progress game with no completed line yet, a flip of
an opponent-owned cell that would complete a winning line for the mover is
rejected with the whole state unchanged; otherwise the conversion is
applied, the flip shell is consumed, the mines are untouched and the
mover's turn ends (the round finishes or the turn passes to the opponent). -/
theorem flip_wouldwin_rejected (g : Game) (s : Symb) (cell : Int)
    (hlen : g.board.length = 9)
    (h1 : g.gameOver = false) (h2 : g.currentTurn = some s)
    (h3 : Shell.flip ∈ g.shells s) (h4 : ¬(cell < 0 ∨ 8 < cell))
    (h5 : cellAt g.board cell.toNat = .owned (opponent s))
    (h6 : checkWin g.board = none) :
    (hasWin (g.board.set cell.toNat (.owned s)) s →
      useFlipAction g s cell = (g, .rejected)) ∧
    (¬hasWin (g.board.set cell.toNat (.owned s)) s →
      (useFlipAction g s cell).1.board = g.board.set cell.toNat (.owned s) ∧
      (useFlipAction g s cell).1.shells s = (g.shells s).erase .flip ∧
      (useFlipAction g s cell).1.shells (opponent s) = g.shells (opponent s) ∧
      (∀ t, (useFlipAction g s cell).1.mines t = g.mines t) ∧
      ((useFlipAction g s cell).1.gameOver = true ∨
        (useFlipAction g s cell).1.currentTurn = some (opponent s))) := by
  have hcell : cell.toNat < 9 := by omega
  have hany : ((checkWin (g.board.set cell.toNat (.owned s))).any
      (fun w => w.winner = s)) = true ↔ hasWin (g.board.set cell.toNat (.owned s)) s := by
    constructor
    · intro hx
      cases hw : checkWin (g.board.set cell.toNat (.owned s)) with
      | none => rw [hw] at hx; exact absurd hx (by simp [Option.any])
      | some w =>
          obtain ⟨a, pre, post, hsplit, hfa, -⟩ := findSome?_first _ _ _ hw
          obtain ⟨hcells, hw1, hw2, hw3⟩ := lineWinner_eq_some _ a w hfa
          rw [hw] at hx
          simp [Option.any] at hx
          refine ⟨a, by rw [hsplit]; simp, ?_⟩
          rw [hx] at hw1 hw2 hw3
          exact ⟨hw1, hw2, hw3⟩
    · intro ⟨l, hl, hl1, hl2, hl3⟩
      cases hw : checkWin (g.board.set cell.toNat (.owned s)) with
      | none =>
          have := List.findSome?_eq_none_iff.mp hw l hl
          rw [lineWinner_of_owned _ l s hl1 hl2 hl3] at this
          simp at this
      | some w =>
          have := provisional_winner_is_mover g s cell.toNat hlen hcell h6 w hw
          simp [Option.any, this]
  unfold useFlipAction
  rw [if_neg (by simp [h1]), if_neg (by simp [h2]), if_neg (by simp [h3]),
    if_neg h4, if_neg (by simp [h5])]
  dsimp only
  constructor
  · intro hwin
    rw [if_pos (hany.mpr hwin)]
  · intro hnowin
    rw [if_neg (fun hx => hnowin (hany.mp hx))]
    set g1 : Game := { Game.setShells g s ((g.shells s).erase .flip) with
      board := g.board.set cell.toNat (.owned s) } with hg1
    have hg1board : g1.board = g.board.set cell.toNat (.owned s) := rfl
    have hg1shells : ∀ t, g1.shells t =
        if t = s then (g.shells s).erase .flip else g.shells t := by
      intro t
      have : g1.shells t = (Game.setShells g s ((g.shells s).erase .flip)).shells t := by
        cases t <;> cases s <;> simp [hg1, Game.shells, Game.setShells]
      rw [this, shells_setShells]
    have hg1mines : ∀ t, g1.mines t = g.mines t := by
      intro t
      have : g1.mines t = (Game.setShells g s ((g.shells s).erase .flip)).mines t := by
        cases t <;> cases s <;> simp [hg1, Game.mines, Game.setShells]
      rw [this, mines_setShells]
    have hg1turn : g1.currentTurn = g.currentTurn := by
      have : g1.currentTurn = (Game.setShells g s ((g.shells s).erase .flip)).currentTurn := by
        cases s <;> simp [hg1, Game.setShells]
      rw [this, currentTurn_setShells]
    split
    · next hend =>
        refine ⟨?_, ?_, ?_, fun t => ?_, Or.inl ?_⟩
        · rw [board_checkGameEnd, hg1board]
        · rw [shells_checkGameEnd, hg1shells]
          simp
        · rw [shells_checkGameEnd, hg1shells]
          rw [if_neg (opponent_ne s)]
        · rw [mines_checkGameEnd, hg1mines]
        · exact gameOver_of_checkGameEnd g1 hend
    · next hend =>
        refine ⟨?_, ?_, ?_, fun t => ?_, Or.inr ?_⟩
        · rw [board_advanceTurn, board_checkGameEnd, hg1board]
        · rw [shells_advanceTurn, shells_checkGameEnd, hg1shells]
          simp
        · rw [shells_advanceTurn, shells_checkGameEnd, hg1shells]
          rw [if_neg (opponent_ne s)]
        · rw [mines_advanceTurn, mines_checkGameEnd, hg1mines]
        · show some (jsOpponent (checkGameEnd g1).1.currentTurn) = some (opponent s)
          rw [currentTurn_checkGameEnd, hg1turn, h2, jsOpponent_some]

/-- A position where a flip would win: X owns 0 and 1, so converting O's
coin on cell 2 would complete the top row for X. -/
def gFlip : Game :=
  { gTrap with
    board := [.owned .X, .owned .X, .owned .O, .owned .O, .empty, .empty,
              .empty, .empty, .empty]
    minesO := [] }

/-- Witness for claim C2: in gFlip, X's flip of cell 2 would complete the
top row and is rejected with the state unchanged. -/
theorem flip_wouldwin_rejected_witness :
    useFlipAction gFlip .X 2 = (gFlip, .rejected) :=
  (flip_wouldwin_rejected gFlip .X 2 (by decide) (by decide) (by decide) (by decide)
    (by decide) (by decide) (by decide)).1 (by decide)

/-- Claim C6: every legal placement, trap hit or not, pushes exactly one
newly drawn shell for the mover before checkGameEnd runs (the final state
contains it even when the same action ends the round), leaves the
opponent's shells alone, and the draw generateRandomShell maps a uniform
unit-interval sample to the three shell kinds on three
equal-length subintervals, so each kind is drawn with probability 1/3. -/
theorem place_grants_one_random_shell (g : Game) (s : Symb) (cell : Int) (sh : Shell)
    (h1 : g.gameOver = false) (h2 : g.currentTurn = some s)
    (h3 : ¬(cell < 0 ∨ 8 < cell)) (h4 : cellAt g.board cell.toNat = .empty) :
    ((placeAction g s cell sh).1.shells s = g.shells s ++ [sh] ∧
     (placeAction g s cell sh).1.shells (opponent s) = g.shells (opponent s) ∧
     ((placeAction g s cell sh).2 = .ended ∨ (placeAction g s cell sh).2 = .advanced)) ∧
    (∀ sh' : Shell, sh' ∈ SHELL_TYPES) ∧
    (∀ r : ℚ, 0 ≤ r → r < 1 →
      ((generateRandomShell r = .mine ↔ r < 1/3) ∧
       (generateRandomShell r = .shovel ↔ 1/3 ≤ r ∧ r < 2/3) ∧
       (generateRandomShell r = .flip ↔ 2/3 ≤ r))) := by
  obtain ⟨-, -, hs⟩ := placeAction_legal_fields g s cell sh h1 h2 h3 h4
  refine ⟨⟨?_, ?_, ?_⟩, ?_, ?_⟩
  · rw [hs s, if_pos rfl]
  · rw [hs (opponent s), if_neg (opponent_ne s)]
  · unfold placeAction
    rw [if_neg (by simp [h1]), if_neg (by simp [h2]), if_neg h3, if_neg (by simp [h4])]
    dsimp only
    split
    · exact Or.inl rfl
    · exact Or.inr rfl
  · intro sh'
    cases sh' <;> simp [SHELL_TYPES]
  · intro r hr0 hr1
    have hge : (0 : ℤ) ≤ ⌊r * 3⌋ := Int.floor_nonneg.mpr (by linarith)
    have hlt : ⌊r * 3⌋ < 3 := Int.floor_lt.mpr (by push_cast; linarith)
    obtain hm | hm | hm : ⌊r * 3⌋ = 0 ∨ ⌊r * 3⌋ = 1 ∨ ⌊r * 3⌋ = 2 := by omega
    · have hb := Int.floor_eq_iff.mp hm
      push_cast at hb
      have hv : generateRandomShell r = .mine := by
        unfold generateRandomShell
        rw [hm]
        decide
      rw [hv]
      refine ⟨⟨fun _ => by linarith [hb.2], fun _ => rfl⟩, ?_, ?_⟩
      · exact ⟨fun h => absurd h (by decide),
          fun hc => absurd hb.2 (by linarith [hc.1])⟩
      · exact ⟨fun h => absurd h (by decide),
          fun hc => absurd hb.2 (by linarith [hc])⟩
    · have hb := Int.floor_eq_iff.mp hm
      push_cast at hb
      have hv : generateRandomShell r = .shovel := by
        unfold generateRandomShell
        rw [hm]
        decide
      rw [hv]
      refine ⟨?_, ⟨fun _ => ⟨by linarith [hb.1], by linarith [hb.2]⟩, fun _ => rfl⟩, ?_⟩
      · exact ⟨fun h => absurd h (by decide),
          fun hc => absurd hb.1 (by linarith [hc])⟩
      · exact ⟨fun h => absurd h (by decide),
          fun hc => absurd hb.2 (by linarith [hc])⟩
    · have hb := Int.floor_eq_iff.mp hm
      push_cast at hb
      have hv : generateRandomShell r = .flip := by
        unfold generateRandomShell
        rw [hm]
        decide
      rw [hv]
      refine ⟨?_, ?_, ⟨fun _ => by linarith [hb.1], fun _ => rfl⟩⟩
      · exact ⟨fun h => absurd h (by decide),
          fun hc => absurd hb.1 (by linarith [hc])⟩
      · exact ⟨fun h => absurd h (by decide),
          fun hc => absurd hb.1 (by linarith [hc.2])⟩

/-- Witness for claim C6: X's legal placement on cell 2 of gOwnTrap pushes
exactly the drawn shovel shell, and the draw at sample one half is the
middle kind. -/
theorem place_grants_one_random_shell_witness :
    (placeAction gOwnTrap .X 2 .shovel).1.shells .X = gOwnTrap.shells .X ++ [.shovel] ∧
    generateRandomShell (1 / 2) = .shovel :=
  have h := place_grants_one_random_shell gOwnTrap .X 2 .shovel (by decide) (by decide)
    (by decide) (by decide)
  ⟨h.1.1, (h.2.2 (1 / 2) (by norm_num) (by norm_num)).2.1.mpr
    ⟨by norm_num, by norm_num⟩⟩

@[simp]
theorem currentTurn_advanceTurn (g : Game) :
    (advanceTurn g).currentTurn = some (jsOpponent g.currentTurn) := rfl

theorem currentTurn_withBoard (g : Game) (b : List Cell) :
    ({ g with board := b } : Game).currentTurn = g.currentTurn := rfl

theorem currentTurn_setRestartVote (g : Game) (s : Symb) (v : Bool) :
    (Game.setRestartVote g s v).currentTurn = g.currentTurn := by
  cases s <;> rfl

theorem gameOver_setRestartVote (g : Game) (s : Symb) (v : Bool) :
    (Game.setRestartVote g s v).gameOver = g.gameOver := by
  cases s <;> rfl

/-- Exhaustive turn bookkeeping for case 'place': either a validation
rejects it with the state returned untouched, or the action is legal and
the round either ends with the turn frozen or the turn flips. -/
theorem placeAction_turn (g : Game) (s : Symb) (cell : Int) (sh : Shell) :
    placeAction g s cell sh = (g, .rejected) ∨
    (g.gameOver = false ∧ g.currentTurn = some s ∧
      (((placeAction g s cell sh).2 = .ended ∧
        (placeAction g s cell sh).1.currentTurn = g.currentTurn ∧
        (placeAction g s cell sh).1.gameOver = true) ∨
       ((placeAction g s cell sh).2 = .advanced ∧
        (placeAction g s cell sh).1.currentTurn = some (jsOpponent g.currentTurn)))) := by
  unfold placeAction
  split
  · exact Or.inl rfl
  next hgo =>
    split
    · exact Or.inl rfl
    next hturn =>
      split
      · exact Or.inl rfl
      next hcell =>
        split
        · exact Or.inl rfl
        next hempty =>
          refine Or.inr ⟨by simpa using hgo, not_not.mp hturn, ?_⟩
          dsimp only
          split
          next hend =>
            refine Or.inl ⟨rfl, ?_, gameOver_of_checkGameEnd _ hend⟩
            rw [currentTurn_checkGameEnd, currentTurn_setShells, currentTurn_processPlacement]
          next hend =>
            refine Or.inr ⟨rfl, ?_⟩
            rw [currentTurn_advanceTurn, currentTurn_checkGameEnd, currentTurn_setShells,
              currentTurn_processPlacement]

/-- Turn bookkeeping for case 'useMine': rejection or a turn flip. -/
theorem useMineAction_turn (g : Game) (s : Symb) (cell : Int) :
    useMineAction g s cell = (g, .rejected) ∨
    (g.gameOver = false ∧ g.currentTurn = some s ∧
      (useMineAction g s cell).2 = .advanced ∧
      (useMineAction g s cell).1.currentTurn = some (jsOpponent g.currentTurn)) := by
  unfold useMineAction
  split
  · exact Or.inl rfl
  next hgo =>
    split
    · exact Or.inl rfl
    next hturn =>
      split
      · exact Or.inl rfl
      · split
        · exact Or.inl rfl
        · split
          · exact Or.inl rfl
          · split
            · exact Or.inl rfl
            · refine Or.inr ⟨by simpa using hgo, not_not.mp hturn, rfl, ?_⟩
              rw [currentTurn_advanceTurn, currentTurn_setMines, currentTurn_setShells]

/-- Turn bookkeeping for case 'useShovel': rejection or a turn flip. -/
theorem useShovelAction_turn (g : Game) (s : Symb) (cell : Int) :
    useShovelAction g s cell = (g, .rejected) ∨
    (g.gameOver = false ∧ g.currentTurn = some s ∧
      (useShovelAction g s cell).2 = .advanced ∧
      (useShovelAction g s cell).1.currentTurn = some (jsOpponent g.currentTurn)) := by
  unfold useShovelAction
  split
  · exact Or.inl rfl
  next hgo =>
    split
    · exact Or.inl rfl
    next hturn =>
      split
      · exact Or.inl rfl
      · split
        · exact Or.inl rfl
        · split
          · exact Or.inl rfl
          · refine Or.inr ⟨by simpa using hgo, not_not.mp hturn, rfl, ?_⟩
            rw [currentTurn_advanceTurn, currentTurn_withBoard, currentTurn_setShells]

/-- Turn bookkeeping for case 'useFlip': rejection (including the
would-win pre-check) or round end with the turn frozen or a turn flip. -/
theorem useFlipAction_turn (g : Game) (s : Symb) (cell : Int) :
    useFlipAction g s cell = (g, .rejected) ∨
    (g.gameOver = false ∧ g.currentTurn = some s ∧
      (((useFlipAction g s cell).2 = .ended ∧
        (useFlipAction g s cell).1.currentTurn = g.currentTurn ∧
        (useFlipAction g s cell).1.gameOver = true) ∨
       ((useFlipAction g s cell).2 = .advanced ∧
        (useFlipAction g s cell).1.currentTurn = some (jsOpponent g.currentTurn)))) := by
  unfold useFlipAction
  split
  · exact Or.inl rfl
  next hgo =>
    split
    · exact Or.inl rfl
    next hturn =>
      split
      · exact Or.inl rfl
      · split
        · exact Or.inl rfl
        · split
          · exact Or.inl rfl
          · dsimp only
            split
            · exact Or.inl rfl
            · refine Or.inr ⟨by simpa using hgo, not_not.mp hturn, ?_⟩
              split
              next hend =>
                refine Or.inl ⟨rfl, ?_, gameOver_of_checkGameEnd _ hend⟩
                rw [currentTurn_checkGameEnd, currentTurn_withBoard, currentTurn_setShells]
              next hend =>
                refine Or.inr ⟨rfl, ?_⟩
                rw [currentTurn_advanceTurn, currentTurn_checkGameEnd,
                  currentTurn_withBoard, currentTurn_setShells]

/-- Turn bookkeeping for case 'restart': rejection while the round is
running, a recorded vote which leaves turn and the finished flag alone, or
the full round reset which returns the match to play. -/
theorem restartAction_turn (g : Game) (s : Symb) (sw : Bool) (nf : Symb) :
    restartAction g s sw nf = (g, .rejected) ∨
    ((restartAction g s sw nf).2 = .voteRecorded ∧
      (restartAction g s sw nf).1.currentTurn = g.currentTurn ∧
      (restartAction g s sw nf).1.gameOver = g.gameOver) ∨
    ((restartAction g s sw nf).2 = .roundReset ∧
      (restartAction g s sw nf).1.gameOver = false) := by
  unfold restartAction
  split
  · exact Or.inl rfl
  · dsimp only
    split
    · exact Or.inr (Or.inr ⟨rfl, rfl⟩)
    · exact Or.inr (Or.inl ⟨rfl, currentTurn_setRestartVote g s true,
        gameOver_setRestartVote g s true⟩)

/-- Claim C3: per handled message, the turn pointer flips exactly once when
an action ends a turn with the round continuing (so the same symbol never
moves twice in a row), stays put on any rejection or bare restart vote,
stays put when the action finishes the round, and never changes while the
round stays finished. -/
theorem turn_alternation (g : Game) (a : GAction) :
    ((step g a).2 = .advanced →
      g.currentTurn.isSome = true ∧
      (step g a).1.currentTurn = some (jsOpponent g.currentTurn) ∧
      (step g a).1.currentTurn ≠ g.currentTurn) ∧
    ((step g a).2 = .rejected → (step g a).1.currentTurn = g.currentTurn) ∧
    ((step g a).2 = .voteRecorded → (step g a).1.currentTurn = g.currentTurn) ∧
    ((step g a).2 = .ended →
      (step g a).1.currentTurn = g.currentTurn ∧ (step g a).1.gameOver = true) ∧
    (g.gameOver = true → (step g a).1.gameOver = true →
      (step g a).1.currentTurn = g.currentTurn) := by
  have hflip : ∀ s : Symb, g.currentTurn = some s →
      some (jsOpponent g.currentTurn) ≠ g.currentTurn := by
    intro s hs
    rw [hs, jsOpponent_some]
    simp [opponent_ne s]
  cases a with
  | place s cell sh =>
      simp only [step]
      rcases placeAction_turn g s cell sh with hres | ⟨hgo, hturn, hcase⟩
      · rw [hres]
        exact ⟨fun h => by simp at h, fun _ => rfl, fun h => by simp at h,
          fun h => by simp at h, fun _ _ => rfl⟩
      · rcases hcase with ⟨hend, hct, hgov⟩ | ⟨hadv, hct⟩
        · refine ⟨fun h => absurd (hend.symm.trans h) (by decide), ?_, ?_, fun _ => ⟨hct, hgov⟩, fun _ _ => hct⟩
          · intro h
            exact absurd (hend.symm.trans h) (by decide)
          · intro h
            exact absurd (hend.symm.trans h) (by decide)
        · refine ⟨fun _ => ⟨by rw [hturn]; rfl, hct, by rw [hct]; exact hflip s hturn⟩,
            ?_, ?_, ?_, ?_⟩
          · intro h
            exact absurd (hadv.symm.trans h) (by decide)
          · intro h
            exact absurd (hadv.symm.trans h) (by decide)
          · intro h
            exact absurd (hadv.symm.trans h) (by decide)
          · intro h5 _
            exact absurd (h5.symm.trans hgo) (by decide)
  | useMine s cell =>
      simp only [step]
      rcases useMineAction_turn g s cell with hres | ⟨hgo, hturn, hadv, hct⟩
      · rw [hres]
        exact ⟨fun h => by simp at h, fun _ => rfl, fun h => by simp at h,
          fun h => by simp at h, fun _ _ => rfl⟩
      · refine ⟨fun _ => ⟨by rw [hturn]; rfl, hct, by rw [hct]; exact hflip s hturn⟩,
          ?_, ?_, ?_, ?_⟩
        · intro h
          exact absurd (hadv.symm.trans h) (by decide)
        · intro h
          exact absurd (hadv.symm.trans h) (by decide)
        · intro h
          exact absurd (hadv.symm.trans h) (by decide)
        · intro h5 _
          exact absurd (h5.symm.trans hgo) (by decide)
  | useShovel s cell =>
      simp only [step]
      rcases useShovelAction_turn g s cell with hres | ⟨hgo, hturn, hadv, hct⟩
      · rw [hres]
        exact ⟨fun h => by simp at h, fun _ => rfl, fun h => by simp at h,
          fun h => by simp at h, fun _ _ => rfl⟩
      · refine ⟨fun _ => ⟨by rw [hturn]; rfl, hct, by rw [hct]; exact hflip s hturn⟩,
          ?_, ?_, ?_, ?_⟩
        · intro h
          exact absurd (hadv.symm.trans h) (by decide)
        · intro h
          exact absurd (hadv.symm.trans h) (by decide)
        · intro h
          exact absurd (hadv.symm.trans h) (by decide)
        · intro h5 _
          exact absurd (h5.symm.trans hgo) (by decide)
  | useFlip s cell =>
      simp only [step]
      rcases useFlipAction_turn g s cell with hres | ⟨hgo, hturn, hcase⟩
      · rw [hres]
        exact ⟨fun h => by simp at h, fun _ => rfl, fun h => by simp at h,
          fun h => by simp at h, fun _ _ => rfl⟩
      · rcases hcase with ⟨hend, hct, hgov⟩ | ⟨hadv, hct⟩
        · refine ⟨fun h => absurd (hend.symm.trans h) (by decide), ?_, ?_, fun _ => ⟨hct, hgov⟩, fun _ _ => hct⟩
          · intro h
            exact absurd (hend.symm.trans h) (by decide)
          · intro h
            exact absurd (hend.symm.trans h) (by decide)
        · refine ⟨fun _ => ⟨by rw [hturn]; rfl, hct, by rw [hct]; exact hflip s hturn⟩,
            ?_, ?_, ?_, ?_⟩
          · intro h
            exact absurd (hadv.symm.trans h) (by decide)
          · intro h
            exact absurd (hadv.symm.trans h) (by decide)
          · intro h
            exact absurd (hadv.symm.trans h) (by decide)
          · intro h5 _
            exact absurd (h5.symm.trans hgo) (by decide)
  | restart s sw nf =>
      simp only [step]
      rcases restartAction_turn g s sw nf with hres | ⟨hvr, hct, hgov⟩ | ⟨hrr, hgov⟩
      · rw [hres]
        exact ⟨fun h => by simp at h, fun _ => rfl, fun h => by simp at h,
          fun h => by simp at h, fun _ _ => rfl⟩
      · refine ⟨?_, ?_, fun _ => hct, ?_, fun _ _ => hct⟩
        · intro h
          exact absurd (hvr.symm.trans h) (by decide)
        · intro h
          exact absurd (hvr.symm.trans h) (by decide)
        · intro h
          exact absurd (hvr.symm.trans h) (by decide)
      · refine ⟨?_, ?_, ?_, ?_, ?_⟩
        · intro h
          exact absurd (hrr.symm.trans h) (by decide)
        · intro h
          exact absurd (hrr.symm.trans h) (by decide)
        · intro h
          exact absurd (hrr.symm.trans h) (by decide)
        · intro h
          exact absurd (hrr.symm.trans h) (by decide)
        · intro _ h5
          exact absurd (hgov.symm.trans h5) (by decide)

/-- Witness for claim C3: in gTrap, X's legal placement on the free cell 6
ends the turn and hands it to O. -/
theorem turn_alternation_witness :
    (step gTrap (.place .X 6 .mine)).1.currentTurn = some (jsOpponent gTrap.currentTurn) :=
  ((turn_alternation gTrap (.place .X 6 .mine)).1 (by decide)).2.1

theorem opponent_opponent (s : Symb) : opponent (opponent s) = s := by
  cases s <;> rfl

theorem mines_withBoard (g : Game) (b : List Cell) (t : Symb) :
    ({ g with board := b } : Game).mines t = g.mines t := by
  cases t <;> rfl

theorem mines_setRestartVote (g : Game) (s : Symb) (v : Bool) (t : Symb) :
    (Game.setRestartVote g s v).mines t = g.mines t := by
  cases s <;> cases t <;> rfl

/-- Mines bookkeeping for case 'place': the only mine sets the handler can
change are the opponent's, and only by erasing the placed cell when it was
mined there. -/
theorem mines_placeAction (g : Game) (s : Symb) (cell : Int) (sh : Shell) (t : Symb) :
    (placeAction g s cell sh).1.mines t = g.mines t ∨
    (t = opponent s ∧ cell.toNat ∈ g.mines (opponent s) ∧
      (placeAction g s cell sh).1.mines t = (g.mines t).erase cell.toNat) := by
  unfold placeAction
  split
  · exact Or.inl rfl
  · split
    · exact Or.inl rfl
    · split
      · exact Or.inl rfl
      · split
        · exact Or.inl rfl
        · dsimp only
          have hmtail : ∀ g2 : Game,
              ((if (checkGameEnd g2).2 then ((checkGameEnd g2).1, GOutcome.ended)
                else (advanceTurn (checkGameEnd g2).1, GOutcome.advanced)).1).mines t =
              g2.mines t := by
            intro g2
            split
            · rw [mines_checkGameEnd]
            · rw [mines_advanceTurn, mines_checkGameEnd]
          rw [hmtail, mines_setShells]
          unfold processPlacement
          dsimp only
          split
          next hmem =>
            by_cases ht : t = opponent s
            · refine Or.inr ⟨ht, hmem, ?_⟩
              rw [ht, mines_setMines, if_pos rfl]
            · refine Or.inl ?_
              rw [mines_setMines, if_neg ht, mines_withBoard]
          next hmem =>
            exact Or.inl (mines_withBoard g _ t)

/-- Mines bookkeeping for case 'useMine': the handler can only append one
cell to the mover's own mine set. -/
theorem mines_useMineAction (g : Game) (s : Symb) (cell : Int) (t : Symb) :
    (useMineAction g s cell).1.mines t = g.mines t ∨
    (t = s ∧ (useMineAction g s cell).1.mines t = g.mines t ++ [cell.toNat]) := by
  unfold useMineAction
  split
  · exact Or.inl rfl
  · split
    · exact Or.inl rfl
    · split
      · exact Or.inl rfl
      · split
        · exact Or.inl rfl
        · split
          · exact Or.inl rfl
          · split
            · exact Or.inl rfl
            · rw [mines_advanceTurn, mines_setMines]
              by_cases ht : t = s
              · refine Or.inr ⟨ht, ?_⟩
                rw [if_pos ht, ht]
              · refine Or.inl ?_
                rw [if_neg ht, mines_setShells]

/-- Case 'useShovel' never touches any mine set. -/
theorem mines_useShovelAction (g : Game) (s : Symb) (cell : Int) (t : Symb) :
    (useShovelAction g s cell).1.mines t = g.mines t := by
  unfold useShovelAction
  split
  · rfl
  · split
    · rfl
    · split
      · rfl
      · split
        · rfl
        · split
          · rfl
          · rw [mines_advanceTurn, mines_withBoard, mines_setShells]

/-- Case 'useFlip' never touches any mine set. -/
theorem mines_useFlipAction (g : Game) (s : Symb) (cell : Int) (t : Symb) :
    (useFlipAction g s cell).1.mines t = g.mines t := by
  unfold useFlipAction
  split
  · rfl
  · split
    · rfl
    · split
      · rfl
      · split
        · rfl
        · split
          · rfl
          · dsimp only
            split
            · rfl
            · split
              · rw [mines_checkGameEnd, mines_withBoard, mines_setShells]
              · rw [mines_advanceTurn, mines_checkGameEnd, mines_withBoard, mines_setShells]

/-- Case 'restart' never touches a mine set except through the full round
reset, which clears both sets. -/
theorem mines_restartAction (g : Game) (s : Symb) (sw : Bool) (nf : Symb) (t : Symb) :
    (restartAction g s sw nf).1.mines t = g.mines t ∨
    ((restartAction g s sw nf).2 = .roundReset ∧ (restartAction g s sw nf).1.mines t = []) := by
  unfold restartAction
  split
  · exact Or.inl rfl
  · dsimp only
    split
    · refine Or.inr ⟨rfl, ?_⟩
      cases t <;> rfl
    · exact Or.inl (mines_setRestartVote g s true t)

/-- Claim C5 (amended): arming a trap succeeds only when the mover holds a
mine shell and the target cell is empty and untrapped by either player, and
then appends exactly that cell to the mover's own trap set; and a symbol's
trap-set cardinality decreases only when the opponent of that symbol places
on one of its trapped cells (consuming exactly the triggered trap), or when
a mutual restart vote resets the whole round and clears both trap sets. -/
theorem armtrap_untrapped_and_cardinality (g : Game) (a : GAction) (s : Symb) :
    (∀ s' : Symb, ∀ cell : Int, (useMineAction g s' cell).2 = .advanced →
      Shell.mine ∈ g.shells s' ∧ cellAt g.board cell.toNat = .empty ∧
      cell.toNat ∉ g.mines s' ∧ cell.toNat ∉ g.mines (opponent s') ∧
      (useMineAction g s' cell).1.mines s' = g.mines s' ++ [cell.toNat]) ∧
    (((step g a).1.mines s).length < (g.mines s).length →
      (∃ cell : Int, ∃ sh : Shell, a = .place (opponent s) cell sh ∧
        cell.toNat ∈ g.mines s ∧
        ((step g a).1.mines s).length + 1 = (g.mines s).length) ∨
      (∃ p : Symb, ∃ sw : Bool, ∃ nf : Symb, a = .restart p sw nf ∧
        (step g a).1.mines s = [])) := by
  constructor
  · intro s' cell hadv
    unfold useMineAction at hadv ⊢
    split at hadv
    · simp at hadv
    next hgo =>
      split at hadv
      · simp at hadv
      next hturn =>
        split at hadv
        · simp at hadv
        next hmine =>
          split at hadv
          · simp at hadv
          next hbounds =>
            split at hadv
            · simp at hadv
            next hempty =>
              split at hadv
              · simp at hadv
              next huntrapped =>
                refine ⟨not_not.mp hmine, not_not.mp hempty,
                  (not_or.mp huntrapped).1, (not_or.mp huntrapped).2, ?_⟩
                rw [if_neg hgo, if_neg hturn, if_neg hmine, if_neg hbounds,
                  if_neg hempty, if_neg huntrapped]
                dsimp only
                rw [mines_advanceTurn, mines_setMines, if_pos rfl]
  · intro hlt
    cases a with
    | place p cell sh =>
        rcases mines_placeAction g p cell sh s with heq | ⟨ht, hmem, herase⟩
        · rw [show step g (.place p cell sh) = placeAction g p cell sh from rfl, heq] at hlt
          exact absurd hlt (lt_irrefl _)
        · have hmem' : cell.toNat ∈ g.mines s := by
            rw [← ht] at hmem
            exact hmem
          refine Or.inl ⟨cell, sh, ?_, hmem', ?_⟩
          · rw [show p = opponent s by rw [ht, opponent_opponent]]
          · rw [show step g (.place p cell sh) = placeAction g p cell sh from rfl, herase]
            have := List.length_erase_of_mem hmem'
            have hpos := List.length_pos_of_mem hmem'
            omega
    | useMine p cell =>
        rcases mines_useMineAction g p cell s with heq | ⟨ht, happ⟩
        · rw [show step g (.useMine p cell) = useMineAction g p cell from rfl, heq] at hlt
          exact absurd hlt (lt_irrefl _)
        · rw [show step g (.useMine p cell) = useMineAction g p cell from rfl, happ] at hlt
          simp at hlt
    | useShovel p cell =>
        rw [show step g (.useShovel p cell) = useShovelAction g p cell from rfl,
          mines_useShovelAction] at hlt
        exact absurd hlt (lt_irrefl _)
    | useFlip p cell =>
        rw [show step g (.useFlip p cell) = useFlipAction g p cell from rfl,
          mines_useFlipAction] at hlt
        exact absurd hlt (lt_irrefl _)
    | restart p sw nf =>
        rcases mines_restartAction g p sw nf s with heq | ⟨hrr, hempty⟩
        · rw [show step g (.restart p sw nf) = restartAction g p sw nf from rfl, heq] at hlt
          exact absurd hlt (lt_irrefl _)
        · exact Or.inr ⟨p, sw, nf, rfl, hempty⟩

/-- The post-join initial state of a fresh match: the creator was seated by
case 'create' on the X seat, the joiner filled the O seat and the random
first mover came up X. -/
def c5Start : Game :=
  joinGame
    (Game.setPlayer (createGameState "AB12CD") .X
      (some { ws := some ⟨1, 1⟩, username := "Alice", userId := "tokA" }))
    ⟨2, 1⟩ "Bob" "tokB" .X

/-- A legal play: X wins the top row while still holding an armed mine on
cell 8 (every placement's drawn shell is recorded in the action). -/
def c5Script : List GAction :=
  [.place .X 0 .mine, .place .O 3 .mine, .place .X 1 .flip, .place .O 4 .shovel,
   .useMine .X 8, .place .O 6 .mine, .place .X 2 .mine]

/-- The finished round reached by c5Script. -/
def c5Finished : Game := runActions c5Start c5Script

/-- Counterexample for claim C5 as frozen: from a reachable finished round
in which X still has one armed trap, the mutual restart vote clears X's
trap set, so the trap-set cardinality decreases (1 to 0) in a step in which
no placement occurs and hence no trap is triggered — the decrease is by
direct reset, not by triggering. -/
theorem armtrap_cardinality_counterexample :
    c5Finished.gameOver = true ∧
    (c5Finished.mines .X).length = 1 ∧
    (runActions c5Finished [.restart .X false .X, .restart .O false .X]).gameOver = false ∧
    ((runActions c5Finished [.restart .X false .X, .restart .O false .X]).mines .X).length = 0 :=
  ⟨by decide, by decide, by decide, by decide⟩

/-- The gTrap position with O to move, so that O can arm a mine. -/
def gArm : Game := { gTrap with currentTurn := some .O }

/-- Witness for claim C5 (amended): in gArm, O arming a mine on the free,
untrapped cell 2 succeeds, and that success certifies the mine shell, the
empty untrapped target and the appended trap set. -/
theorem armtrap_untrapped_and_cardinality_witness :
    Shell.mine ∈ gArm.shells .O ∧ cellAt gArm.board (Int.toNat 2) = .empty ∧
    Int.toNat 2 ∉ gArm.mines .O ∧ Int.toNat 2 ∉ gArm.mines (opponent .O) ∧
    (useMineAction gArm .O 2).1.mines .O = gArm.mines .O ++ [Int.toNat 2] :=
  (armtrap_untrapped_and_cardinality gArm (.place .X 0 .mine) .X).1 .O 2 (by decide)

theorem registryKeys_registrySet (reg : Registry) (k : String) (g : Game) :
    registryKeys (registrySet reg k g) =
      if k ∈ registryKeys reg then registryKeys reg else registryKeys reg ++ [k] := by
  induction reg with
  | nil => simp [registrySet, registryKeys]
  | cons hd rest ih =>
      obtain ⟨k', v⟩ := hd
      by_cases hk : k' = k
      · subst hk
        simp [registrySet, registryKeys]
      · rw [show registrySet ((k', v) :: rest) k g =
            (k', v) :: registrySet rest k g by simp [registrySet, hk]]
        rw [show registryKeys ((k', v) :: registrySet rest k g) =
            k' :: registryKeys (registrySet rest k g) from rfl]
        rw [show registryKeys ((k', v) :: rest) = k' :: registryKeys rest from rfl]
        rw [ih]
        by_cases hmem : k ∈ registryKeys rest
        · rw [if_pos hmem, if_pos (List.mem_cons_of_mem k' hmem)]
        · rw [if_neg hmem, if_neg (by simp [List.mem_cons, hmem, Ne.symm hk])]
          rfl

theorem registryLookup_registrySet_self (reg : Registry) (k : String) (g : Game) :
    registryLookup (registrySet reg k g) k = some g := by
  induction reg with
  | nil => simp [registrySet, registryLookup]
  | cons hd rest ih =>
      obtain ⟨k', v⟩ := hd
      by_cases hk : k' = k
      · subst hk
        simp [registrySet, registryLookup]
      · rw [show registrySet ((k', v) :: rest) k g =
            (k', v) :: registrySet rest k g by simp [registrySet, hk]]
        rw [show registryLookup ((k', v) :: registrySet rest k g) k =
            if k' = k then some v else registryLookup (registrySet rest k g) k from rfl]
        rw [if_neg hk]
        exact ih

/-- A colluding pair of sockets used in the registry scenarios. -/
def c8Conn1 : Conn := ⟨10, 1⟩

def c8Conn2 : Conn := ⟨11, 1⟩

/-- A registry holding one live match whose generated id is AB12CD. -/
def c8Reg0 : Registry := createCase [] c8Conn1 "Alice" "tokA" "AB12CD" .X

/-- The registry after a second create whose generateId() draw collides
with the live id AB12CD. -/
def c8Reg1 : Registry := createCase c8Reg0 c8Conn2 "Mallory" "tokM" "AB12CD" .O

/-- Counterexample for claim C8 as frozen: the create handler performs no
collision check, so a create whose random id draw equals the id of a live
match assigns that already-held id, silently replacing the live match
(same registry size, different stored game). -/
theorem match_id_never_reassigned_counterexample :
    ("AB12CD" ∈ registryKeys c8Reg0) = True ∧
    registryLookup c8Reg1 "AB12CD" ≠ registryLookup c8Reg0 "AB12CD" ∧
    c8Reg1.length = c8Reg0.length :=
  ⟨by decide, by decide, by decide⟩

/-- Claim C8 (amended): any two distinct live matches always carry distinct
ids, because the registry is a map keyed by id and creation preserves key
uniqueness; but creation with a colliding generated id replaces the
existing live match under that id rather than never assigning it. -/
theorem match_id_unique_amended (reg : Registry) (ws : Conn)
    (usernameRaw userId gameId : String) (sym : Symb)
    (h : (registryKeys reg).Nodup) :
    (registryKeys (createCase reg ws usernameRaw userId gameId sym)).Nodup ∧
    (registryLookup (createCase reg ws usernameRaw userId gameId sym) gameId).isSome = true := by
  constructor
  · unfold createCase
    rw [registryKeys_registrySet]
    split
    · exact h
    · next hk =>
        rw [List.nodup_append]
        refine ⟨h, List.nodup_singleton _, ?_⟩
        intro x hx
        simp only [List.mem_singleton]
        intro hxk
        exact hk (hxk ▸ hx)
  · unfold createCase
    rw [registryLookup_registrySet_self]
    rfl

/-- Witness for claim C8 (amended): creating a fresh match with the unused
id ZZ99ZZ on top of c8Reg0 keeps the key list duplicate-free and stores the
match. -/
theorem match_id_unique_amended_witness :
    (registryKeys (createCase c8Reg0 c8Conn2 "Bob" "tokB" "ZZ99ZZ" .O)).Nodup ∧
    (registryLookup (createCase c8Reg0 c8Conn2 "Bob" "tokB" "ZZ99ZZ" .O) "ZZ99ZZ").isSome = true :=
  match_id_unique_amended c8Reg0 c8Conn2 "Bob" "tokB" "ZZ99ZZ" .O (by decide)

theorem player_setPlayer (g : Game) (s t : Symb) (v : Option Player) :
    (Game.setPlayer g s v).player t = if t = s then v else g.player t := by
  cases s <;> cases t <;> simp [Game.setPlayer, Game.player]

theorem currentTurn_setPlayer (g : Game) (s : Symb) (v : Option Player) :
    (Game.setPlayer g s v).currentTurn = g.currentTurn := by
  cases s <;> rfl

/-- Claim C9: for a reconnect whose match resolves but whose token matches
no seat, the handler answers with the dedicated reconnectFailed rejection
(a different message constructor from the generic error) and leaves the
registry untouched; when the token matches a seat that still holds a
different open socket, that stale socket is notified it is kicked and is
closed, the seat is rebound to the new socket, and the new socket is told
the opponent's name and whether the match has started. -/
theorem reconnect_rejection_and_supersede (reg : Registry) (gameIdRaw userId : String)
    (ws : Conn) (game : Game)
    (hws : ws.readyState = 1)
    (hfound : registryLookup reg (jsNormalizeId gameIdRaw) = some game) :
    (findUserSeat game userId = none →
      reconnectCase reg gameIdRaw userId ws =
        (reg, [.send ws.cid (.reconnectFailed ("Not a player in this game"))]) ∧
      (∀ m : String,
        ServerMsg.reconnectFailed ("Not a player in this game") ≠ .errorMsg m)) ∧
    (∀ sym : Symb, ∀ pl : Player, ∀ oldWs : Conn,
      findUserSeat game userId = some sym →
      game.player sym = some pl → pl.ws = some oldWs →
      oldWs.cid ≠ ws.cid → oldWs.readyState = 1 →
      Event.send oldWs.cid (.kicked ("Reconnected from another tab"))
          ∈ (reconnectCase reg gameIdRaw userId ws).2 ∧
      Event.closeConn oldWs.cid ∈ (reconnectCase reg gameIdRaw userId ws).2 ∧
      Event.send ws.cid (.reconnected sym (jsNormalizeId gameIdRaw)
          ((game.player (opponent sym)).map (fun p => p.username)) pl.username
          game.currentTurn.isSome) ∈ (reconnectCase reg gameIdRaw userId ws).2 ∧
      registryLookup (reconnectCase reg gameIdRaw userId ws).1 (jsNormalizeId gameIdRaw) =
        some (Game.setPlayer game sym (some { pl with ws := some ws }))) := by
  constructor
  · intro hnone
    constructor
    · unfold reconnectCase
      dsimp only
      rw [hfound]
      dsimp only
      rw [hnone]
      simp [sendJSON, hws]
    · intro m h
      exact ServerMsg.noConfusion h
  · intro sym pl oldWs hsym hpl holdws hcid holdready
    have hopp : (Game.setPlayer game sym (some { pl with ws := some ws })).player
        (opponent sym) = game.player (opponent sym) := by
      rw [player_setPlayer, if_neg (opponent_ne sym)]
    have hct : (Game.setPlayer game sym (some { pl with ws := some ws })).currentTurn =
        game.currentTurn := currentTurn_setPlayer game sym _
    unfold reconnectCase
    dsimp only
    rw [hfound]
    dsimp only
    rw [hsym]
    dsimp only
    rw [hpl]
    dsimp only
    rw [holdws]
    dsimp only
    rw [if_pos ⟨hcid, holdready⟩]
    refine ⟨?_, ?_, ?_, ?_⟩
    · simp [sendJSON, holdready]
    · simp [sendJSON, holdready]
    · rw [hopp, hct]
      simp [sendJSON, hws]
    · exact registryLookup_registrySet_self reg _ _

/-- Witness for claim C9: reconnecting to the live match AB12CD (typed in
lower case) with Alice's token from a new socket (cid 5) kicks and closes
her stale socket (cid 1) and rebinds the X seat to the new socket in the
stored game. -/
theorem reconnect_rejection_and_supersede_witness :
    Event.send 1 (ServerMsg.kicked ("Reconnected from another tab"))
      ∈ (reconnectCase [("AB12CD", gTrap)] "ab12cd" "tokA" ⟨5, 1⟩).2 ∧
    Event.closeConn 1 ∈ (reconnectCase [("AB12CD", gTrap)] "ab12cd" "tokA" ⟨5, 1⟩).2 ∧
    registryLookup (reconnectCase [("AB12CD", gTrap)] "ab12cd" "tokA" ⟨5, 1⟩).1
        (jsNormalizeId "ab12cd") =
      some (Game.setPlayer gTrap .X
        (some { ws := some ⟨5, 1⟩, username := "Alice", userId := "tokA" })) :=
  have h := (reconnect_rejection_and_supersede [("AB12CD", gTrap)] "ab12cd" "tokA"
    ⟨5, 1⟩ gTrap (by decide) (by decide)).2
    .X { ws := some ⟨1, 1⟩, username := "Alice", userId := "tokA" } ⟨1, 1⟩
    (by decide) (by decide) (by decide) (by decide) (by decide)
  ⟨h.1, h.2.1, h.2.2.2⟩
